import Mathlib

/-!
# Verification of the admission-control and optimistic-concurrency core

Shallow embedding of the Go sources of `lets-go-further-api`:

* `cmd/api/middleware.go` — the `rateLimit` middleware (per-client token
  buckets via `golang.org/x/time/rate`, a background sweeper, and the
  `recoverPanic` wrapper);
* `internal/data/movies.go` — `MovieModel.Get` / `MovieModel.Update`
  (the version-guarded conditional UPDATE) over an abstract row store;
* the `updateMovieHandler` request handler and the error-response
  helpers of `cmd/api/errors.go`;
* the `Runtime` JSON codec of `internal/data` (the `runtime.go` document).

Times are modelled as rationals (seconds); Go's `time.Time` zero value is
the rational `0`, and a wall-clock instant is a large positive rational.
Token counts (Go `float64`) are rationals. Machine integers (`int32`,
`int64`) are modelled as `Int` with explicit range hypotheses where the
width matters.
-/

/-! ## The token-bucket limiter (`golang.org/x/time/rate`)

`cmd/api/middleware.go` delegates per-client admission to
`rate.Limiter`. The model below reproduces `Limiter.advance` and
`Limiter.AllowN(now, 1)` for a finite limit: refill is proportional to
elapsed time since `last`, capped at `burst`; an allowed call debits one
token and stores `now`; a denied call leaves tokens unchanged (the
library restores `last` on the not-ok path of `reserveN`). -/

structure Limiter where
  limit  : ℚ
  burst  : ℕ
  tokens : ℚ
  last   : ℚ
deriving Repr, DecidableEq

/-- `rate.NewLimiter(r, b)`: the zero value has `tokens = 0` and `last`
equal to Go's zero time (modelled as `0`), so the first `advance` at a
wall-clock instant fills the bucket. -/
def rateNewLimiter (r : ℚ) (b : ℕ) : Limiter :=
  { limit := r, burst := b, tokens := 0, last := 0 }

/-- `Limiter.advance`: clamp `last` to `now`, add `limit` tokens per
elapsed second, cap at `burst`. -/
def Limiter.advance (lim : Limiter) (now : ℚ) : ℚ :=
  let last := if now < lim.last then now else lim.last
  let tokens := lim.tokens + lim.limit * (now - last)
  if (lim.burst : ℚ) < tokens then (lim.burst : ℚ) else tokens

/-- `Limiter.Allow(now)` = `AllowN(now, 1)`: ok iff `1 ≤ burst` and one
token is available after refill; on ok, debit and advance `last`; on
not-ok, state is left as it was (up to the `last` clamp). -/
def Limiter.allow (lim : Limiter) (now : ℚ) : Bool × Limiter :=
  let tokens := lim.advance now
  if 1 ≤ lim.burst ∧ 1 ≤ tokens then
    (true, { lim with tokens := tokens - 1, last := now })
  else
    (false, { lim with last := if now < lim.last then now else lim.last })

/-! ## The limiter registry and the `rateLimit` middleware -/

/-- The `limiter` section of `config` (`main.go`): `rps`, `burst`,
`enabled`. -/
structure LimiterCfg where
  rps     : ℚ
  burst   : ℕ
  enabled : Bool
deriving Repr, DecidableEq

/-- One value of the `clients` map of `rateLimit`: a limiter plus the
`lastSeen` timestamp. -/
structure ClientEntry where
  limiter  : Limiter
  lastSeen : ℚ
deriving Repr, DecidableEq

/-- The `clients` map, keyed by client IP. Association list with at most
one entry per key (the Go map invariant); `regKeysNodup` states it. -/
abbrev Registry := List (String × ClientEntry)

def regFind (reg : Registry) (ip : String) : Option ClientEntry :=
  match reg with
  | [] => none
  | (k, e) :: rest => if k = ip then some e else regFind rest ip

def regSet (reg : Registry) (ip : String) (e : ClientEntry) : Registry :=
  match reg with
  | [] => [(ip, e)]
  | (k, e0) :: rest => if k = ip then (k, e) :: rest else (k, e0) :: regSet rest ip e

def regKeysNodup (reg : Registry) : Prop :=
  (reg.map Prod.fst).Nodup

/-- Outcome of one request through the `rateLimit` middleware:
`serverFault` = `serverErrorResponse` (identity resolution failed),
`rateLimited` = `rateLimitExceededResponse`, `admitted` = the wrapped
handler `next.ServeHTTP` ran. -/
inductive RLOutcome
  | serverFault
  | rateLimited
  | admitted
deriving Repr, DecidableEq

/-- One request through the handler returned by `rateLimit`
(`middleware.go` lines 90–131). `ipRes` is the result of
`net.SplitHostPort(r.RemoteAddr)`: `some ip` on success, `none` on
error. On error the middleware sends `serverErrorResponse` and returns
without touching `clients`. Otherwise it creates the client's entry if
absent (`rate.NewLimiter(cfg.rps, cfg.burst)`), sets `lastSeen := now`,
and calls `Allow` on the client's limiter.

NOTE (faithful to the source): `rateLimit` never reads
`cfg.enabled`; the flag is parsed in `main.go` but not consulted. -/
def rateLimitStep (cfg : LimiterCfg) (reg : Registry) (ipRes : Option String)
    (now : ℚ) : RLOutcome × Registry :=
  match ipRes with
  | none => (.serverFault, reg)
  | some ip =>
    let entry :=
      match regFind reg ip with
      | some e => e
      | none => { limiter := rateNewLimiter cfg.rps cfg.burst, lastSeen := 0 }
    let entry := { entry with lastSeen := now }
    let (ok, lim) := entry.limiter.allow now
    let reg := regSet reg ip { entry with limiter := lim }
    if ok then (.admitted, reg) else (.rateLimited, reg)

/-- `n` immediate requests from the same client, all at instant `now`
(a burst). Returns the outcome of each request and the final registry. -/
def admitN (cfg : LimiterCfg) (reg : Registry) (ip : String) (now : ℚ) :
    ℕ → List RLOutcome × Registry
  | 0 => ([], reg)
  | Nat.succ n =>
    let (o, reg1) := rateLimitStep cfg reg (some ip) now
    let (os, reg2) := admitN cfg reg1 ip now n
    (o :: os, reg2)

/-- One pass of the background sweeper goroutine (`middleware.go` lines
70–88): delete every client not seen within the last 3 minutes
(`time.Since(client.lastSeen) > 3*time.Minute`, in seconds). -/
def sweepStep (reg : Registry) (now : ℚ) : Registry :=
  reg.filter (fun p => if 180 < now - p.2.lastSeen then false else true)

/-! ## The movie store and the version-guarded update
(`internal/data/movies.go`)

The persistence layer is modelled as a list of rows; each SQL statement
is one atomic step against it (Postgres executes the single conditional
`UPDATE` atomically). `CreatedAt` is carried but never written by
`Update`. `int64` ids and `int32` versions/years/runtimes are modelled
as `Int`. -/

structure Movie where
  id        : Int
  createdAt : Int
  title     : String
  year      : Int
  runtime   : Int
  genres    : List String
  version   : Int
deriving Repr, DecidableEq

/-- The error values of `internal/data` (`errors.New` values in
`models.go`): `ErrRecordNotFound`, `ErrEditConflict`, plus a generic
constructor for any other database error surfaced verbatim. -/
inductive DataErr
  | recordNotFound
  | editConflict
  | storeFault (msg : String)
deriving Repr, DecidableEq

/-- First row whose `id` column matches (`WHERE id = $1`). -/
def dbFind (db : List Movie) (id : Int) : Option Movie :=
  match db with
  | [] => none
  | row :: rest => if row.id = id then some row else dbFind rest id

/-- Replace the row whose `id` matches `m.id` by `m`. -/
def dbReplace (db : List Movie) (m : Movie) : List Movie :=
  match db with
  | [] => []
  | row :: rest => if row.id = m.id then m :: rest else row :: dbReplace rest m

/-- `MovieModel.Get` (`movies.go` lines 77–130): ids below 1 are
reported not-found without a query; `sql.ErrNoRows` is mapped to
`ErrRecordNotFound`. -/
def movieGet (db : List Movie) (id : Int) : Except DataErr Movie :=
  if id < 1 then .error .recordNotFound
  else
    match dbFind db id with
    | none => .error .recordNotFound
    | some m => .ok m

/-- `MovieModel.Update` (`movies.go` lines 133–170): the single atomic
statement `UPDATE movies SET title…, version = version + 1 WHERE id = $5
AND version = $6 RETURNING version`. Zero matched rows surface as
`sql.ErrNoRows` from `Scan`, mapped to `ErrEditConflict`; on success
`Scan(&movie.Version)` writes the returned version into the caller's
in-memory record. Returns the store after the statement and the
update's result. -/
def movieUpdate (db : List Movie) (movie : Movie) :
    List Movie × Except DataErr Movie :=
  match dbFind db movie.id with
  | some row =>
    if row.version = movie.version then
      let newRow := { row with
        title := movie.title, year := movie.year,
        runtime := movie.runtime, genres := movie.genres,
        version := row.version + 1 }
      (dbReplace db newRow, .ok { movie with version := row.version + 1 })
    else
      (db, .error .editConflict)
  | none => (db, .error .editConflict)

/-! ## The update handler (`updateMovieHandler`) and error responses

`cmd/api/errors.go` response helpers are modelled as the trace of
user-visible events they produce; `serverErrorResponse` first calls
`logError`. The handler embedding below follows the variant of
`updateMovieHandler` that also defines `listMovieHandler` (the
`part_004` document — the variant `routes.go` links against); the older
snapshot bundled in `cmd/api/movies.go` differs only in the `Update`
error switch, captured by `HandlerVariant`. -/

inductive Event
  | wroteNotFound
  | wroteServerError
  | wroteBadRequest
  | wroteUnprocessable
  | wroteConflict
  | wroteOK
  | loggedError
  | connectionClose
deriving Repr, DecidableEq

def serverErrorResponse : List Event := [.loggedError, .wroteServerError]

def notFoundResponse : List Event := [.wroteNotFound]

def editConflictResponse : List Event := [.wroteConflict]

def badRequestResponse : List Event := [.wroteBadRequest]

def failedValidationResponse : List Event := [.wroteUnprocessable]

/-- `validator.Unique`: insert every value into a set and compare
cardinalities. -/
def uniqueList (values : List String) : Bool :=
  (values.foldl (fun acc v => if v ∈ acc then acc else v :: acc) []).length
    = values.length

/-- `data.ValidateMovie` (`movies.go` lines 25–45) as a predicate:
`Valid()` holds iff every `Check` passed. `curYear` models
`time.Now().Year()`; Go's `len` on the title counts bytes; a nil and an
empty `Genres` slice are both `[]`. -/
def validMovie (curYear : Int) (m : Movie) : Bool :=
  (m.title ≠ "" : Bool) && (m.title.utf8ByteSize ≤ 500 : Bool)
    && (m.year ≠ 0 : Bool) && (1888 ≤ m.year : Bool) && (m.year ≤ curYear : Bool)
    && (m.runtime ≠ 0 : Bool) && (0 < m.runtime : Bool)
    && (m.genres ≠ [] : Bool) && (1 ≤ m.genres.length : Bool)
    && (m.genres.length ≤ 5 : Bool) && uniqueList m.genres

/-- The handler's decoded request body: one optional field per JSON key
(`nil` pointer = key absent). -/
structure UpdateInput where
  title   : Option String
  year    : Option Int
  runtime : Option Int
  genres  : Option (List String)
deriving Repr, DecidableEq

/-- One `if input.X != nil { movie.X = *input.X }` block. The movie
value is an optional pointer: assigning through it when it is `none`
(nil) is a nil-pointer dereference, i.e. a panic, signalled by the outer
`none`. -/
def applyField {α : Type} (mo : Option Movie) (fld : Option α)
    (set : Movie → α → Movie) : Option (Option Movie) :=
  match fld with
  | none => some mo
  | some v =>
    match mo with
    | none => none
    | some m => some (some (set m v))

/-- The four copy blocks of `updateMovieHandler`, in source order. -/
def applyInput (mo : Option Movie) (inp : UpdateInput) :
    Option (Option Movie) := do
  let mo ← applyField mo inp.title fun m t => { m with title := t }
  let mo ← applyField mo inp.year fun m y => { m with year := y }
  let mo ← applyField mo inp.runtime fun m rt => { m with runtime := rt }
  applyField mo inp.genres fun m g => { m with genres := g }

/-- The same copy blocks on a non-nil movie, as a total function. -/
def applyMovie (m : Movie) (inp : UpdateInput) : Movie :=
  { m with
    title := inp.title.getD m.title
    year := inp.year.getD m.year
    runtime := inp.runtime.getD m.runtime
    genres := inp.genres.getD m.genres }

/-- The two `Update`-error switches found in the repository:
`part004` (checks `errors.Is(err, data.ErrEditConflict)` and sends the
409 response) and `moviesGo` (the older snapshot in
`cmd/api/movies.go`, which sends `serverErrorResponse` for every
`Update` error). -/
inductive HandlerVariant
  | moviesGo
  | part004
deriving Repr, DecidableEq

structure HandlerResult where
  events   : List Event
  panicked : Bool
  db       : List Movie
deriving Repr, DecidableEq

/-- The part of `updateMovieHandler` after the `Get` call. `ev0` is the
trace already written (404 on the fall-through path), `mo` the movie
pointer (`none` = nil after the not-found fall-through), `dbUpd` the
store at the moment the conditional `UPDATE` executes. -/
def updateMovieAfterGet (variant : HandlerVariant) (curYear : Int)
    (db dbUpd : List Movie) (ev0 : List Event) (mo : Option Movie)
    (bodyRes : Option UpdateInput) : HandlerResult :=
  match bodyRes with
  | none => ⟨ev0 ++ badRequestResponse, false, db⟩
  | some input =>
    match applyInput mo input with
    | none => ⟨ev0, true, db⟩
    | some mo1 =>
      match mo1 with
      | none => ⟨ev0, true, db⟩
      | some m =>
        if validMovie curYear m then
          match movieUpdate dbUpd m with
          | (db1, .ok _) => ⟨ev0 ++ [.wroteOK], false, db1⟩
          | (db1, .error e) =>
            match variant, e with
            | .part004, .editConflict => ⟨ev0 ++ editConflictResponse, false, db1⟩
            | .part004, _ => ⟨ev0 ++ serverErrorResponse, false, db1⟩
            | .moviesGo, _ => ⟨ev0 ++ serverErrorResponse, false, db1⟩
        else
          ⟨ev0 ++ failedValidationResponse, false, db⟩

/-- `updateMovieHandler`. Shallow inputs: `idRes` is `readIDParam`'s
result, `bodyRes` is `readJSON`'s result, `curYear` is
`time.Now().Year()`, and `concurrent` is the interference of other
writers on the store between the handler's `Get` and its `Update` (the
window optimistic concurrency guards; `id` for an uncontended run).

Faithful to the source: in the switch on the `Get` error, only the
`default` branch returns — the `ErrRecordNotFound` branch writes the
404 response and falls through with the nil `movie` pointer. -/
def updateMovieHandler (variant : HandlerVariant) (curYear : Int)
    (db : List Movie) (concurrent : List Movie → List Movie)
    (idRes : Option Int) (bodyRes : Option UpdateInput) : HandlerResult :=
  match idRes with
  | none => ⟨notFoundResponse, false, db⟩
  | some id =>
    match movieGet db id with
    | .error .recordNotFound =>
      updateMovieAfterGet variant curYear db (concurrent db)
        notFoundResponse none bodyRes
    | .error _ => ⟨serverErrorResponse, false, db⟩
    | .ok m =>
      updateMovieAfterGet variant curYear db (concurrent db) [] (some m) bodyRes

/-- `recoverPanic` (`middleware.go` lines 13–29): if the wrapped handler
panicked, set `Connection: close` and send `serverErrorResponse`. -/
def recoverPanic (h : HandlerResult) : HandlerResult :=
  if h.panicked then
    ⟨h.events ++ .connectionClose :: serverErrorResponse, false, h.db⟩
  else h

/-! ## The `Runtime` JSON codec (`internal/data`, the `runtime.go`
document)

Go strings are byte sequences; every byte the codec handles is printable
ASCII, so a Go string is modelled as a `List Char`. -/

abbrev GoStr := List Char

def digitChar (d : ℕ) : Char := Char.ofNat (48 + d)

/-- Decimal digits of `n`, most significant first, as `fmt.Sprintf`'s
`%d` verb prints a non-negative integer (`"0"` for zero). -/
def natToChars (n : ℕ) : GoStr :=
  if n = 0 then ['0'] else ((Nat.digits 10 n).reverse).map digitChar

/-- `fmt.Sprintf("%d", r)` for a (32-bit) integer `r`: a minus sign
followed by the decimal magnitude when negative. -/
def itoa (r : Int) : GoStr :=
  if r < 0 then '-' :: natToChars r.natAbs else natToChars r.toNat

/-- `strconv.Quote`, restricted to its action on strings of printable
ASCII characters other than `'"'` and backslash — the only strings
`MarshalJSON` produces. Such characters are emitted unescaped, so
`Quote` wraps the string in double quotes. -/
def goQuote (s : GoStr) : GoStr := '"' :: (s ++ ['"'])

/-- `strconv.Unquote`, restricted likewise: it succeeds on a
double-quoted string whose interior holds no `'"'` and no backslash (no
escape sequences), returning the interior; everything else in that
fragment errors. -/
def goUnquote (s : GoStr) : Option GoStr :=
  match s with
  | '"' :: rest =>
    if rest.getLast? = some '"'
        ∧ ∀ c ∈ rest.dropLast, c ≠ '"' ∧ c ≠ '\\' then
      some rest.dropLast
    else none
  | _ => none

/-- `strings.Split(s, " ")`: cut at every space, keeping empty pieces. -/
def splitSpace : GoStr → List GoStr
  | [] => [[]]
  | c :: rest =>
    match splitSpace rest with
    | [] => [[c]]
    | w :: ws => if c = ' ' then [] :: w :: ws else (c :: w) :: ws

def digitVal (c : Char) : Option ℕ :=
  if '0' ≤ c ∧ c ≤ '9' then some (c.toNat - 48) else none

/-- The digit loop of `strconv.ParseUint` (base 10): accumulate left to
right, failing on a non-digit. -/
def parseDigitsAux : GoStr → ℕ → Option ℕ
  | [], acc => some acc
  | c :: cs, acc =>
    match digitVal c with
    | none => none
    | some d => parseDigitsAux cs (acc * 10 + d)

/-- `strconv.ParseInt(s, 10, 32)`: optional sign, then a non-empty digit
string, with the 32-bit range check (`ErrRange` also makes
`UnmarshalJSON` fail, so an out-of-range value is `none`). -/
def parseInt32 (s : GoStr) : Option Int :=
  match s with
  | [] => none
  | c :: rest =>
    let neg : Bool := c = '-'
    let digitsPart := if c = '-' ∨ c = '+' then rest else s
    match digitsPart with
    | [] => none
    | _ =>
      match parseDigitsAux digitsPart 0 with
      | none => none
      | some v =>
        if neg then
          if v ≤ 2 ^ 31 then some (-(v : Int)) else none
        else
          if v ≤ 2 ^ 31 - 1 then some (v : Int) else none

/-- `Runtime.MarshalJSON`: `strconv.Quote(fmt.Sprintf("%d mins", r))`. -/
def marshalRuntime (r : Int) : GoStr :=
  goQuote (itoa r ++ [' ', 'm', 'i', 'n', 's'])

/-- `Runtime.UnmarshalJSON`: unquote, split on spaces, require exactly
two parts with `"mins"` second, parse the first as a 32-bit integer.
`none` is `ErrInvalidRuntimeFormat`. -/
def unmarshalRuntime (jsonValue : GoStr) : Option Int :=
  match goUnquote jsonValue with
  | none => none
  | some unquoted =>
    match splitSpace unquoted with
    | [p0, p1] => if p1 = ['m', 'i', 'n', 's'] then parseInt32 p0 else none
    | _ => none

/-- The entry `rateLimit` stores for a client that has just been seen:
`lastSeen = now`, limiter with the configured rate and burst whose
`last` is `now`. -/
def midEntry (cfg : LimiterCfg) (now tok : ℚ) : ClientEntry :=
  { limiter := { limit := cfg.rps, burst := cfg.burst, tokens := tok, last := now },
    lastSeen := now }

/-- Registry invariant for a fixed configuration: every bucket was built
with the configured capacity and holds at most that many tokens. -/
def regWellFormed (cfg : LimiterCfg) (reg : Registry) : Prop :=
  ∀ p ∈ reg, p.2.limiter.burst = cfg.burst
    ∧ p.2.limiter.tokens ≤ (cfg.burst : ℚ)

/-- A sample stored row used by concrete witnesses. -/
def demoRow : Movie :=
  { id := 1, createdAt := 0, title := "A", year := 2000, runtime := 100,
    genres := ["drama"], version := 2 }

/-- The same row after a concurrent writer bumped its version. -/
def demoRow3 : Movie := { demoRow with version := 3 }

/-- A decoded PATCH body with every field absent. -/
def emptyInput : UpdateInput :=
  { title := none, year := none, runtime := none, genres := none }


/-- The row the guarded update writes when it matches `row` with the
submitted record `m`. -/
def updatedRow (row m : Movie) : Movie :=
  { row with
    title := m.title
    year := m.year
    runtime := m.runtime
    genres := m.genres
    version := row.version + 1 }

/-! ## Store lemmas -/

theorem dbFind_dbReplace (db : List Movie) (i : Int) (row m : Movie)
    (hfind : dbFind db i = some row) (hid : m.id = i) :
    dbFind (dbReplace db m) i = some m := by
  induction db with
  | nil => simp [dbFind] at hfind
  | cons r rest ih =>
    by_cases h : r.id = i
    · rw [dbFind, if_pos h] at hfind
      rw [dbReplace, if_pos (by rw [hid, h]), dbFind, if_pos hid]
    · rw [dbFind, if_neg h] at hfind
      rw [dbReplace, if_neg (by rw [hid]; exact h), dbFind, if_neg h]
      exact ih hfind

/-- A row found under key `i` has id `i` (the `WHERE id` condition). -/
theorem dbFind_id (db : List Movie) (i : Int) (row : Movie)
    (h : dbFind db i = some row) : row.id = i := by
  induction db with
  | nil => cases h
  | cons r rest ih =>
    by_cases hr : r.id = i
    · rw [dbFind, if_pos hr] at h
      rw [← Option.some.inj h]
      exact hr
    · rw [dbFind, if_neg hr] at h
      exact ih h

/-- Characterization of `movieUpdate` when the conditional matches. -/
theorem movieUpdate_match (db : List Movie) (movie row : Movie)
    (hfind : dbFind db movie.id = some row)
    (hv : row.version = movie.version) :
    movieUpdate db movie
      = (dbReplace db (updatedRow row movie),
         Except.ok { movie with version := movie.version + 1 }) := by
  unfold movieUpdate
  rw [hfind]
  dsimp only
  rw [if_pos hv]
  simp only [updatedRow, hv]

/-- Characterization of `movieUpdate` when zero rows match. -/
theorem movieUpdate_nomatch (db : List Movie) (movie : Movie)
    (h : ∀ row, dbFind db movie.id = some row → row.version ≠ movie.version) :
    movieUpdate db movie = (db, Except.error DataErr.editConflict) := by
  unfold movieUpdate
  rcases hfind : dbFind db movie.id with _ | row
  · rfl
  · dsimp only
    rw [if_neg (h row hfind)]

/-! ## C2 -/

/-- C2: a guarded update succeeds only if the stored version for the
record's id equals the submitted version; on success the stored version
becomes exactly `submitted + 1` and the writer's in-memory record is
updated to that version. -/
theorem c2_guarded_update_version_protocol
    (db : List Movie) (movie m : Movie)
    (h : (movieUpdate db movie).2 = Except.ok m) :
    (∃ row, dbFind db movie.id = some row ∧ row.version = movie.version)
    ∧ m = { movie with version := movie.version + 1 }
    ∧ m.version = movie.version + 1
    ∧ ∃ row, dbFind (movieUpdate db movie).1 movie.id = some row
        ∧ row.version = movie.version + 1 := by
  rcases hfind : dbFind db movie.id with _ | row
  · rw [movieUpdate_nomatch db movie (by intro r hr; rw [hfind] at hr; cases hr)]
      at h
    cases h
  · by_cases hv : row.version = movie.version
    · have hres := movieUpdate_match db movie row hfind hv
      rw [hres] at h
      replace h := (Except.ok.inj h).symm
      refine ⟨⟨row, rfl, hv⟩, h, by rw [h], ?_⟩
      rw [hres]
      refine ⟨updatedRow row movie,
        dbFind_dbReplace db movie.id row _ hfind
          (dbFind_id db movie.id row hfind), ?_⟩
      simp [updatedRow, hv]
    · rw [movieUpdate_nomatch db movie
        (by intro r hr; rw [hfind] at hr; cases hr; exact hv)] at h
      cases h

/-- C2 witness: a successful guarded update of a concrete row stored at
version 2, submitted with version 2. -/
theorem c2_guarded_update_version_protocol_witness :
    (∃ row, dbFind [demoRow] demoRow.id = some row
        ∧ row.version = demoRow.version)
    ∧ demoRow3 = { demoRow with version := demoRow.version + 1 }
    ∧ demoRow3.version = demoRow.version + 1
    ∧ ∃ row, dbFind (movieUpdate [demoRow] demoRow).1 demoRow.id = some row
        ∧ row.version = demoRow.version + 1 :=
  c2_guarded_update_version_protocol [demoRow] demoRow demoRow3 rfl

/-! ## C3 -/

/-- C3: whenever the conditional update matches zero stored rows —
whether the row is absent or its stored version differs — `Update`
returns the edit-conflict error, which is a different error value from
record-not-found; it neither reports not-found nor succeeds, and the
store is unchanged. -/
theorem c3_zero_matches_is_edit_conflict
    (db : List Movie) (movie : Movie)
    (h : ∀ row, dbFind db movie.id = some row → row.version ≠ movie.version) :
    (movieUpdate db movie).2 = Except.error DataErr.editConflict
    ∧ (movieUpdate db movie).1 = db
    ∧ DataErr.editConflict ≠ DataErr.recordNotFound
    ∧ (movieUpdate db movie).2 ≠ Except.error DataErr.recordNotFound
    ∧ ∀ m, (movieUpdate db movie).2 ≠ Except.ok m := by
  rw [movieUpdate_nomatch db movie h]
  refine ⟨rfl, rfl, by decide, by intro hm; simp at hm,
    fun m hm => by simp at hm⟩

/-- C3 witness: submitting version 2 while the stored row moved to
version 3. -/
theorem c3_zero_matches_is_edit_conflict_witness :
    (movieUpdate [demoRow3] demoRow).2 = Except.error DataErr.editConflict
    ∧ (movieUpdate [demoRow3] demoRow).1 = [demoRow3]
    ∧ DataErr.editConflict ≠ DataErr.recordNotFound
    ∧ (movieUpdate [demoRow3] demoRow).2 ≠ Except.error DataErr.recordNotFound
    ∧ ∀ m, (movieUpdate [demoRow3] demoRow).2 ≠ Except.ok m := by
  refine c3_zero_matches_is_edit_conflict [demoRow3] demoRow ?_
  intro row hrow
  have hr : demoRow3 = row := Option.some.inj hrow
  rw [← hr]
  decide

/-! ## C8 -/

/-- C8: of two guarded updates to the same record both submitted with
the stored version, the update the store serializes first succeeds and
returns version `v + 1`, the other receives the edit-conflict error (no
stale success), and a subsequent read shows version `v + 1` holding only
the winner's field values. Both interleavings are covered since `m1` and
`m2` range over both orders. -/
theorem c8_concurrent_updates_one_winner
    (db : List Movie) (m1 m2 row : Movie)
    (hid2 : m2.id = m1.id) (hpos : 1 ≤ m1.id)
    (hfind : dbFind db m1.id = some row)
    (hv1 : row.version = m1.version) (hv2 : m2.version = m1.version) :
    (movieUpdate db m1).2 = Except.ok { m1 with version := m1.version + 1 }
    ∧ (movieUpdate (movieUpdate db m1).1 m2).2
        = Except.error DataErr.editConflict
    ∧ (movieUpdate (movieUpdate db m1).1 m2).1 = (movieUpdate db m1).1
    ∧ movieGet (movieUpdate (movieUpdate db m1).1 m2).1 m1.id
        = Except.ok (updatedRow row m1) := by
  have hres1 := movieUpdate_match db m1 row hfind hv1
  have hfind1 : dbFind (movieUpdate db m1).1 m1.id
      = some (updatedRow row m1) := by
    rw [hres1]
    exact dbFind_dbReplace db m1.id row _ hfind (dbFind_id db m1.id row hfind)
  have hver1 : (updatedRow row m1).version = m1.version + 1 := by
    simp [updatedRow, hv1]
  have hres2 : movieUpdate (movieUpdate db m1).1 m2
      = ((movieUpdate db m1).1, Except.error DataErr.editConflict) := by
    refine movieUpdate_nomatch _ m2 ?_
    intro r hr
    rw [hid2, hfind1] at hr
    rw [← Option.some.inj hr, hver1, hv2]
    omega
  refine ⟨by rw [hres1], by rw [hres2], by rw [hres2], ?_⟩
  rw [hres2]
  unfold movieGet
  rw [if_neg (by omega), hfind1]

/-! ## Handler lemmas -/

/-- Applying a decoded body to a non-nil movie never panics and yields
the four-field override. -/
theorem applyInput_some (m : Movie) (input : UpdateInput) :
    applyInput (some m) input = some (some (applyMovie m input)) := by
  rcases input with ⟨t, y, rt, g⟩
  cases t <;> cases y <;> cases rt <;> cases g <;> rfl

/-- Applying a decoded body to the nil movie pointer either panics in a
copy block (some field present) or passes the nil pointer on (all
fields absent). -/
theorem applyInput_none_cases (input : UpdateInput) :
    applyInput none input = none ∨ applyInput none input = some none := by
  rcases input with ⟨t, y, rt, g⟩
  cases t <;> cases y <;> cases rt <;> cases g <;>
    first
    | exact Or.inl rfl
    | exact Or.inr rfl

/-! ## C4 -/

/-- C4 counterexample: an invocation of the `updateMovieHandler` variant
found in `cmd/api/movies.go` in which the guarded update returns the
edit-conflict error, yet the handler logs it and answers with the
generic 500 server-fault response instead of the 409 conflict
response. -/
theorem c4_counterexample_movies_go_maps_conflict_to_500 :
    (movieUpdate [demoRow3] (applyMovie demoRow emptyInput)).2
      = Except.error DataErr.editConflict
    ∧ updateMovieHandler HandlerVariant.moviesGo 2026 [demoRow]
        (fun _ => [demoRow3]) (some 1) (some emptyInput)
      = ⟨serverErrorResponse, false, [demoRow3]⟩
    ∧ Event.wroteConflict ∉ (updateMovieHandler HandlerVariant.moviesGo 2026
        [demoRow] (fun _ => [demoRow3]) (some 1) (some emptyInput)).events
    ∧ Event.loggedError ∈ (updateMovieHandler HandlerVariant.moviesGo 2026
        [demoRow] (fun _ => [demoRow3]) (some 1) (some emptyInput)).events := by
  refine ⟨rfl, rfl, by decide, by decide⟩

/-- C4 (amended): in the `updateMovieHandler` variant of `part_004`
(the one `routes.go` requires, since it also defines
`listMovieHandler`), every invocation in which the guarded update path
produces the edit-conflict error answers with the 409 conflict response
alone — it is neither logged nor mapped to the generic server fault. -/
theorem c4_part004_edit_conflict_surfaced_as_409
    (curYear : Int) (db : List Movie) (concurrent : List Movie → List Movie)
    (id : Int) (input : UpdateInput) (m : Movie)
    (hget : movieGet db id = Except.ok m)
    (hvalid : validMovie curYear (applyMovie m input) = true)
    (hconf : (movieUpdate (concurrent db) (applyMovie m input)).2
        = Except.error DataErr.editConflict) :
    updateMovieHandler HandlerVariant.part004 curYear db concurrent
        (some id) (some input)
      = ⟨editConflictResponse, false,
         (movieUpdate (concurrent db) (applyMovie m input)).1⟩
    ∧ Event.loggedError ∉ editConflictResponse
    ∧ Event.wroteServerError ∉ editConflictResponse := by
  refine ⟨?_, by decide, by decide⟩
  unfold updateMovieHandler
  dsimp only
  rw [hget]
  dsimp only
  unfold updateMovieAfterGet
  dsimp only
  rw [applyInput_some m input]
  dsimp only
  rw [if_pos hvalid]
  rcases hu : movieUpdate (concurrent db) (applyMovie m input) with ⟨db1, r⟩
  rw [hu] at hconf
  simp only at hconf
  subst hconf
  simp

/-- C4 witness: a concrete conflicting invocation of the `part_004`
handler, answered by the 409 response. -/
theorem c4_part004_edit_conflict_surfaced_as_409_witness :
    (updateMovieHandler HandlerVariant.part004 2026 [demoRow]
        (fun _ => [demoRow3]) (some 1) (some emptyInput)
      = ⟨editConflictResponse, false, [demoRow3]⟩)
    ∧ Event.loggedError ∉ editConflictResponse
    ∧ Event.wroteServerError ∉ editConflictResponse :=
  c4_part004_edit_conflict_surfaced_as_409 2026 [demoRow]
    (fun _ => [demoRow3]) 1 emptyInput demoRow rfl rfl rfl

/-! ## C9 -/

/-- C9: whenever `Get` reports record-not-found, `updateMovieHandler`
writes the 404 response but does not return; it continues with the nil
movie pointer, and (for any successfully decoded body) dereferences it,
panicking; only the outer `recoverPanic` middleware turns the panic into
a connection-closing logged 500 after the already-written 404. -/
theorem c9_not_found_falls_through_to_nil_panic
    (variant : HandlerVariant) (curYear : Int) (db : List Movie)
    (concurrent : List Movie → List Movie) (id : Int) (input : UpdateInput)
    (hget : movieGet db id = Except.error DataErr.recordNotFound) :
    updateMovieHandler variant curYear db concurrent (some id) (some input)
      = ⟨notFoundResponse, true, db⟩
    ∧ recoverPanic (updateMovieHandler variant curYear db concurrent
        (some id) (some input))
      = ⟨notFoundResponse ++ Event.connectionClose :: serverErrorResponse,
         false, db⟩ := by
  have hmain : updateMovieHandler variant curYear db concurrent
      (some id) (some input) = ⟨notFoundResponse, true, db⟩ := by
    unfold updateMovieHandler
    dsimp only
    rw [hget]
    dsimp only
    unfold updateMovieAfterGet
    dsimp only
    rcases applyInput_none_cases input with hai | hai <;> rw [hai]
  refine ⟨hmain, ?_⟩
  rw [hmain]
  rfl

/-- C9 witness: updating the missing id 5 on an empty store with a body
that sets the title. -/
theorem c9_not_found_falls_through_to_nil_panic_witness :
    updateMovieHandler HandlerVariant.part004 2026 [] id (some 5)
        (some { title := some "T", year := none, runtime := none,
                genres := none })
      = ⟨notFoundResponse, true, []⟩
    ∧ recoverPanic (updateMovieHandler HandlerVariant.part004 2026 [] id
        (some 5)
        (some { title := some "T", year := none, runtime := none,
                genres := none }))
      = ⟨notFoundResponse ++ Event.connectionClose :: serverErrorResponse,
         false, []⟩ :=
  c9_not_found_falls_through_to_nil_panic HandlerVariant.part004 2026 [] id 5
    { title := some "T", year := none, runtime := none, genres := none } rfl

/-! ## Limiter lemmas -/

/-- Refill caps at the bucket capacity. -/
theorem Limiter.advance_le_burst (lim : Limiter) (now : ℚ) :
    lim.advance now ≤ (lim.burst : ℚ) := by
  unfold Limiter.advance
  dsimp only
  rcases le_or_lt
      (lim.tokens + lim.limit * (now - if now < lim.last then now else lim.last))
      ((lim.burst : ℚ)) with h | h
  · rw [if_neg (not_lt.mpr h)]
    exact h
  · rw [if_pos h]

/-- At a wall-clock instant far enough from the zero time, a freshly
constructed limiter refills to a full bucket. -/
theorem advance_fresh (r : ℚ) (b : ℕ) (now : ℚ) (hnow : 0 ≤ now)
    (hfill : (b : ℚ) ≤ r * now) :
    (rateNewLimiter r b).advance now = (b : ℚ) := by
  unfold rateNewLimiter Limiter.advance
  dsimp only
  rw [if_neg (not_lt.mpr hnow), sub_zero, zero_add]
  by_cases hlt : (b : ℚ) < r * now
  · rw [if_pos hlt]
  · rw [if_neg hlt]
    exact le_antisymm (le_of_not_lt hlt) hfill

/-- Advancing a just-updated bucket at the same instant leaves its
tokens unchanged. -/
theorem advance_mid (cfg : LimiterCfg) (now tok : ℚ)
    (htok : tok ≤ (cfg.burst : ℚ)) :
    (midEntry cfg now tok).limiter.advance now = tok := by
  unfold midEntry Limiter.advance
  dsimp only
  rw [if_neg (lt_irrefl now), sub_self, mul_zero, add_zero,
    if_neg (not_lt.mpr htok)]

/-- A fresh bucket admits the first call when `1 ≤ burst`, leaving
`burst - 1` tokens. -/
theorem allow_fresh_ok (cfg : LimiterCfg) (now : ℚ) (hnow : 0 ≤ now)
    (hfill : (cfg.burst : ℚ) ≤ cfg.rps * now) (hb : 1 ≤ cfg.burst) :
    (rateNewLimiter cfg.rps cfg.burst).allow now
      = (true, (midEntry cfg now ((cfg.burst : ℚ) - 1)).limiter) := by
  unfold Limiter.allow
  rw [advance_fresh cfg.rps cfg.burst now hnow hfill]
  rw [if_pos ⟨hb, by exact_mod_cast Nat.one_le_cast.mpr hb⟩]
  rfl

/-- A just-updated bucket with at least one token admits an immediate
call, debiting one token. -/
theorem allow_mid_ok (cfg : LimiterCfg) (now tok : ℚ)
    (htok : tok ≤ (cfg.burst : ℚ)) (hb : 1 ≤ cfg.burst) (h1 : 1 ≤ tok) :
    (midEntry cfg now tok).limiter.allow now
      = (true, (midEntry cfg now (tok - 1)).limiter) := by
  unfold Limiter.allow
  rw [advance_mid cfg now tok htok, if_pos ⟨hb, h1⟩]
  rfl

/-- A just-updated bucket below one token denies an immediate call and
is left unchanged. -/
theorem allow_mid_deny (cfg : LimiterCfg) (now tok : ℚ)
    (htok : tok ≤ (cfg.burst : ℚ)) (hlt : tok < 1) :
    (midEntry cfg now tok).limiter.allow now
      = (false, (midEntry cfg now tok).limiter) := by
  unfold Limiter.allow
  rw [advance_mid cfg now tok htok,
    if_neg (fun hc => absurd hc.2 (not_le.mpr hlt))]
  unfold midEntry
  dsimp only
  rw [if_neg (lt_irrefl now)]

/-! ## Registry lemmas -/

theorem regFind_single (ip : String) (e : ClientEntry) :
    regFind [(ip, e)] ip = some e := by
  simp [regFind]

theorem regSet_single (ip : String) (e e2 : ClientEntry) :
    regSet [(ip, e)] ip e2 = [(ip, e2)] := by
  simp [regSet]

theorem regFind_mem (reg : Registry) (ip : String) (e : ClientEntry)
    (h : regFind reg ip = some e) : (ip, e) ∈ reg := by
  induction reg with
  | nil => cases h
  | cons p rest ih =>
    rcases p with ⟨k, e0⟩
    by_cases hk : k = ip
    · rw [regFind, if_pos hk] at h
      subst hk
      rw [← Option.some.inj h]
      exact List.mem_cons_self _ _
    · rw [regFind, if_neg hk] at h
      exact List.mem_cons_of_mem _ (ih h)

theorem regSet_mem (reg : Registry) (ip : String) (e : ClientEntry)
    (p : String × ClientEntry) (hp : p ∈ regSet reg ip e) :
    p ∈ reg ∨ p = (ip, e) := by
  induction reg with
  | nil =>
    rw [regSet] at hp
    right
    simpa using hp
  | cons q rest ih =>
    rcases q with ⟨k, e0⟩
    rw [regSet] at hp
    by_cases hk : k = ip
    · rw [if_pos hk] at hp
      rcases List.mem_cons.mp hp with h | h
      · subst hk
        right
        rw [h]
      · left
        exact List.mem_cons_of_mem _ h
    · rw [if_neg hk] at hp
      rcases List.mem_cons.mp hp with h | h
      · left
        rw [h]
        exact List.mem_cons_self _ _
      · rcases ih h with h2 | h2
        · left
          exact List.mem_cons_of_mem _ h2
        · right
          exact h2

theorem regFind_eq_none (reg : Registry) (ip : String)
    (h : ip ∉ reg.map Prod.fst) : regFind reg ip = none := by
  induction reg with
  | nil => rfl
  | cons q rest ih =>
    rcases q with ⟨k, e0⟩
    simp only [List.map_cons, List.mem_cons, not_or] at h
    rw [regFind, if_neg (fun hk => h.1 hk.symm)]
    exact ih h.2

theorem regFind_filter_of_none (reg : Registry) (ip : String)
    (p : String × ClientEntry → Bool) (h : regFind reg ip = none) :
    regFind (reg.filter p) ip = none := by
  induction reg with
  | nil => rfl
  | cons q rest ih =>
    rcases q with ⟨k, e0⟩
    by_cases hk : k = ip
    · rw [regFind, if_pos hk] at h
      cases h
    · rw [regFind, if_neg hk] at h
      rw [List.filter_cons]
      by_cases hp : p (k, e0)
      · rw [if_pos hp, regFind, if_neg hk]
        exact ih h
      · rw [if_neg hp]
        exact ih h

/-- With the Go-map key invariant, filtering out the unique entry of a
key makes lookups of that key fail. -/
theorem regFind_filter_nodup (reg : Registry) (ip : String) (e : ClientEntry)
    (p : String × ClientEntry → Bool) (hnd : regKeysNodup reg)
    (hfind : regFind reg ip = some e) :
    regFind (reg.filter p) ip = if p (ip, e) then some e else none := by
  induction reg with
  | nil => cases hfind
  | cons q rest ih =>
    rcases q with ⟨k, e0⟩
    rw [regKeysNodup, List.map_cons, List.nodup_cons] at hnd
    by_cases hk : k = ip
    · rw [regFind, if_pos hk] at hfind
      replace hfind := Option.some.inj hfind
      subst hfind
      subst hk
      rw [List.filter_cons]
      by_cases hp : p (k, e0)
      · rw [if_pos hp, if_pos hp, regFind, if_pos rfl]
      · rw [if_neg hp, if_neg hp]
        exact regFind_filter_of_none rest k p (regFind_eq_none rest k hnd.1)
    · rw [regFind, if_neg hk] at hfind
      rw [List.filter_cons]
      by_cases hp : p (k, e0)
      · rw [if_pos hp, regFind, if_neg hk]
        exact ih hnd.2 hfind
      · rw [if_neg hp]
        exact ih hnd.2 hfind

/-! ## Middleware step lemmas -/

/-- First request from a never-seen (or swept) client, at a wall-clock
instant, with a positive configured burst: admitted, and the registry
gains a just-seen entry holding `burst - 1` tokens. -/
theorem rateLimitStep_fresh (cfg : LimiterCfg) (reg : Registry) (ip : String)
    (now : ℚ) (hmiss : regFind reg ip = none) (hnow : 0 ≤ now)
    (hfill : (cfg.burst : ℚ) ≤ cfg.rps * now) (hb : 1 ≤ cfg.burst) :
    rateLimitStep cfg reg (some ip) now
      = (RLOutcome.admitted,
         regSet reg ip (midEntry cfg now ((cfg.burst : ℚ) - 1))) := by
  unfold rateLimitStep
  dsimp only
  rw [hmiss]
  dsimp only
  rw [allow_fresh_ok cfg now hnow hfill hb]
  rfl

/-- A bucket of capacity zero never admits. -/
theorem allow_burst_zero (lim : Limiter) (now : ℚ) (hb0 : lim.burst = 0) :
    (lim.allow now).1 = false := by
  unfold Limiter.allow
  dsimp only
  rw [if_neg (fun hc => by rw [hb0] at hc; exact absurd hc.1 (by norm_num))]

/-- First request from a never-seen client when the configured burst is
zero: denied. -/
theorem rateLimitStep_fresh_zero (cfg : LimiterCfg) (reg : Registry)
    (ip : String) (now : ℚ) (hmiss : regFind reg ip = none)
    (hb0 : cfg.burst = 0) :
    (rateLimitStep cfg reg (some ip) now).1 = RLOutcome.rateLimited := by
  unfold rateLimitStep
  dsimp only
  rw [hmiss]
  dsimp only
  rcases hallow : (rateNewLimiter cfg.rps cfg.burst).allow now with ⟨ok, lim⟩
  have hok := allow_burst_zero (rateNewLimiter cfg.rps cfg.burst) now hb0
  rw [hallow] at hok
  dsimp only at hok
  subst hok
  rfl

/-- Immediate repeat request finding at least one token: admitted. -/
theorem rateLimitStep_mid_ok (cfg : LimiterCfg) (ip : String)
    (now tok : ℚ) (htok : tok ≤ (cfg.burst : ℚ)) (hb : 1 ≤ cfg.burst)
    (h1 : 1 ≤ tok) :
    rateLimitStep cfg [(ip, midEntry cfg now tok)] (some ip) now
      = (RLOutcome.admitted, [(ip, midEntry cfg now (tok - 1))]) := by
  unfold rateLimitStep
  dsimp only
  rw [regFind_single ip (midEntry cfg now tok)]
  dsimp only
  rw [allow_mid_ok cfg now tok htok hb h1]
  dsimp only
  rw [regSet_single]
  rfl

/-- Immediate repeat request finding less than one token: denied, and
the entry is unchanged. -/
theorem rateLimitStep_mid_deny (cfg : LimiterCfg) (ip : String)
    (now tok : ℚ) (htok : tok ≤ (cfg.burst : ℚ)) (hlt : tok < 1) :
    rateLimitStep cfg [(ip, midEntry cfg now tok)] (some ip) now
      = (RLOutcome.rateLimited, [(ip, midEntry cfg now tok)]) := by
  unfold rateLimitStep
  dsimp only
  rw [regFind_single ip (midEntry cfg now tok)]
  dsimp only
  rw [allow_mid_deny cfg now tok htok hlt]
  dsimp only
  rw [regSet_single]
  rfl

/-- Unfolding one step of a burst of calls. -/
theorem admitN_succ (cfg : LimiterCfg) (reg : Registry) (ip : String)
    (now : ℚ) (n : ℕ) :
    admitN cfg reg ip now (n + 1)
      = ((rateLimitStep cfg reg (some ip) now).1
          :: (admitN cfg (rateLimitStep cfg reg (some ip) now).2 ip now n).1,
         (admitN cfg (rateLimitStep cfg reg (some ip) now).2 ip now n).2) := by
  conv_lhs => rw [admitN]

/-- Draining a just-seen bucket holding `t ≤ burst` tokens with `t + 1`
immediate calls: `t` admissions, then one denial, ending empty. -/
theorem admitN_drain (cfg : LimiterCfg) (ip : String) (now : ℚ)
    (hb : 1 ≤ cfg.burst) :
    ∀ t : ℕ, t ≤ cfg.burst →
      admitN cfg [(ip, midEntry cfg now (t : ℚ))] ip now (t + 1)
        = (List.replicate t RLOutcome.admitted ++ [RLOutcome.rateLimited],
           [(ip, midEntry cfg now 0)]) := by
  intro t
  induction t with
  | zero =>
    intro _
    rw [admitN_succ, Nat.cast_zero,
      rateLimitStep_mid_deny cfg ip now 0 (by positivity) (by norm_num)]
    rfl
  | succ t ih =>
    intro ht
    have hcast : ((t : ℚ) + 1) - 1 = (t : ℚ) := by ring
    rw [admitN_succ, Nat.cast_succ,
      rateLimitStep_mid_ok cfg ip now ((t : ℚ) + 1)
        (by exact_mod_cast Nat.cast_le.mpr ht) hb
        (by have := Nat.cast_nonneg (α := ℚ) t; linarith),
      hcast, ih (Nat.le_of_succ_le ht)]
    rw [List.replicate_succ]
    rfl

/-- A full fresh burst: from an empty registry, `burst + 1` immediate
calls admit exactly `burst` and then deny, leaving an empty just-seen
bucket. -/
theorem admitN_fresh_run (cfg : LimiterCfg) (ip : String) (now : ℚ)
    (hnow : 0 ≤ now) (hfill : (cfg.burst : ℚ) ≤ cfg.rps * now)
    (hb : 1 ≤ cfg.burst) :
    admitN cfg [] ip now (cfg.burst + 1)
      = (List.replicate cfg.burst RLOutcome.admitted
          ++ [RLOutcome.rateLimited],
         [(ip, midEntry cfg now 0)]) := by
  obtain ⟨b, hbeq⟩ : ∃ b, cfg.burst = b + 1 := ⟨cfg.burst - 1, by omega⟩
  rw [hbeq, admitN_succ, rateLimitStep_fresh cfg [] ip now rfl hnow hfill hb]
  have hcast : (cfg.burst : ℚ) - 1 = (b : ℚ) := by
    rw [hbeq]
    push_cast
    ring
  rw [hcast]
  dsimp only [regSet]
  rw [admitN_drain cfg ip now hb b (by omega)]
  rw [List.replicate_succ]
  rfl

/-- Characterization of the registry a step leaves behind: the touched
entry is the found (or fresh) bucket run through `Allow`, stamped with
`lastSeen = now`. -/
theorem rateLimitStep_reg (cfg : LimiterCfg) (reg : Registry) (ip : String)
    (now : ℚ) :
    ∃ e0 : ClientEntry,
      (regFind reg ip = some e0
        ∨ e0 = ⟨rateNewLimiter cfg.rps cfg.burst, 0⟩)
      ∧ (rateLimitStep cfg reg (some ip) now).2
        = regSet reg ip ⟨(e0.limiter.allow now).2, now⟩ := by
  unfold rateLimitStep
  dsimp only
  rcases hfind : regFind reg ip with _ | e
  · refine ⟨⟨rateNewLimiter cfg.rps cfg.burst, 0⟩, Or.inr rfl, ?_⟩
    dsimp only
    rcases hallow : (rateNewLimiter cfg.rps cfg.burst).allow now with ⟨ok, lim⟩
    cases ok <;> rfl
  · refine ⟨e, Or.inl rfl, ?_⟩
    dsimp only
    rcases hallow : e.limiter.allow now with ⟨ok, lim⟩
    cases ok <;> rfl

/-- `Allow` keeps the capacity and never pushes tokens above it. -/
theorem Limiter.allow_bounds (lim : Limiter) (now : ℚ)
    (h : lim.tokens ≤ (lim.burst : ℚ)) :
    ((lim.allow now).2).burst = lim.burst
    ∧ ((lim.allow now).2).tokens ≤ (lim.burst : ℚ) := by
  unfold Limiter.allow
  dsimp only
  by_cases hc : 1 ≤ lim.burst ∧ 1 ≤ lim.advance now
  · rw [if_pos hc]
    refine ⟨rfl, ?_⟩
    have := Limiter.advance_le_burst lim now
    dsimp only
    linarith
  · rw [if_neg hc]
    exact ⟨rfl, h⟩

/-- One middleware step preserves the registry invariant. -/
theorem rateLimitStep_preserves_wf (cfg : LimiterCfg) (reg : Registry)
    (ipRes : Option String) (now : ℚ) (hwf : regWellFormed cfg reg) :
    regWellFormed cfg (rateLimitStep cfg reg ipRes now).2 := by
  cases ipRes with
  | none => exact hwf
  | some ip =>
    obtain ⟨e0, he0, hreg⟩ := rateLimitStep_reg cfg reg ip now
    have hb0 : e0.limiter.burst = cfg.burst
        ∧ e0.limiter.tokens ≤ (cfg.burst : ℚ) := by
      rcases he0 with h | h
      · exact hwf (ip, e0) (regFind_mem reg ip e0 h)
      · rw [h]
        exact ⟨rfl, by simp [rateNewLimiter]⟩
    rw [hreg]
    show ∀ p ∈ regSet reg ip ⟨(e0.limiter.allow now).2, now⟩,
      p.2.limiter.burst = cfg.burst ∧ p.2.limiter.tokens ≤ (cfg.burst : ℚ)
    intro p hp
    rcases regSet_mem reg ip _ p hp with hin | hpe
    · exact hwf p hin
    · rw [hpe]
      dsimp only
      have hbounds := Limiter.allow_bounds e0.limiter now (by rw [hb0.1]; exact hb0.2)
      rw [hb0.1] at hbounds
      exact hbounds

/-- Any number of middleware steps preserves the registry invariant. -/
theorem admitN_preserves_wf (cfg : LimiterCfg) (ip : String) (now : ℚ) :
    ∀ (k : ℕ) (reg : Registry), regWellFormed cfg reg →
      regWellFormed cfg (admitN cfg reg ip now k).2 := by
  intro k
  induction k with
  | zero => exact fun reg h => h
  | succ k ih =>
    intro reg h
    rw [admitN_succ]
    exact ih _ (rateLimitStep_preserves_wf cfg reg (some ip) now h)

/-! ## C1 -/

/-- C1: the spec says `enabled = false` admits every request without
touching the registry, but `rateLimit` never reads `cfg.enabled` (the
flag is parsed in `main.go` and ignored). Evaluating the middleware at
the failing input — `enabled = false`, rps 2, burst 4, five immediate
requests at wall-clock second `10^9` — the fifth request is denied, and
already after one request the registry is non-empty. -/
theorem c1_enabled_false_still_limits :
    (admitN ⟨2, 4, false⟩ [] "1.2.3.4" 1000000000 5).1
      = List.replicate 4 RLOutcome.admitted ++ [RLOutcome.rateLimited]
    ∧ (admitN ⟨2, 4, false⟩ [] "1.2.3.4" 1000000000 1).2 ≠ [] := by
  have hfill : ((4 : ℕ) : ℚ) ≤ (2 : ℚ) * 1000000000 := by norm_num
  constructor
  · exact congrArg Prod.fst
      (admitN_fresh_run ⟨2, 4, false⟩ "1.2.3.4" 1000000000
        (by norm_num) hfill (by norm_num))
  · have h1 := rateLimitStep_fresh ⟨2, 4, false⟩ [] "1.2.3.4" 1000000000
      rfl (by norm_num) hfill (by norm_num)
    intro hnil
    rw [show (1 : ℕ) = 0 + 1 from rfl, admitN_succ] at hnil
    rw [h1] at hnil
    cases hnil

/-! ## C5 -/

/-- C5: when `net.SplitHostPort` cannot resolve a client identity, the
middleware reports a server fault, leaves the registry untouched, and
neither admits the request (the wrapped handler does not run) nor
reports a rate-limit denial. -/
theorem c5_unresolvable_identity_is_server_fault
    (cfg : LimiterCfg) (reg : Registry) (now : ℚ) :
    rateLimitStep cfg reg none now = (RLOutcome.serverFault, reg)
    ∧ RLOutcome.serverFault ≠ RLOutcome.admitted
    ∧ RLOutcome.serverFault ≠ RLOutcome.rateLimited :=
  ⟨rfl, by decide, by decide⟩

/-! ## C6 -/

/-- C6: from a fresh bucket (first request of an identity, at a
wall-clock instant far enough from the zero time), `burst + 1`
immediate calls yield exactly `burst` admissions followed by one
denial; and after any number of calls every bucket in the registry has
the configured capacity and holds at most `burst` tokens. -/
theorem c6_fresh_burst_admits_exactly_burst
    (cfg : LimiterCfg) (ip : String) (now : ℚ)
    (hnow : 0 ≤ now) (hfill : (cfg.burst : ℚ) ≤ cfg.rps * now) :
    (admitN cfg [] ip now (cfg.burst + 1)).1
      = List.replicate cfg.burst RLOutcome.admitted
        ++ [RLOutcome.rateLimited]
    ∧ ∀ k, regWellFormed cfg (admitN cfg [] ip now k).2 := by
  constructor
  · rcases Nat.eq_zero_or_pos cfg.burst with hb0 | hb
    · rw [hb0, admitN_succ]
      rw [rateLimitStep_fresh_zero cfg [] ip now rfl hb0]
      rfl
    · exact congrArg Prod.fst (admitN_fresh_run cfg ip now hnow hfill hb)
  · intro k
    refine admitN_preserves_wf cfg ip now k [] ?_
    intro p hp
    cases hp

/-- C6 witness: rps 2, burst 4, five immediate calls at second `10^9`;
the registry invariant checked after three calls. -/
theorem c6_fresh_burst_admits_exactly_burst_witness :
    (admitN ⟨2, 4, true⟩ [] "8.8.8.8" 1000000000 5).1
      = List.replicate 4 RLOutcome.admitted ++ [RLOutcome.rateLimited]
    ∧ regWellFormed ⟨2, 4, true⟩
        (admitN ⟨2, 4, true⟩ [] "8.8.8.8" 1000000000 3).2 := by
  have h := c6_fresh_burst_admits_exactly_burst ⟨2, 4, true⟩ "8.8.8.8"
    1000000000 (by norm_num)
    (show ((4 : ℕ) : ℚ) ≤ (2 : ℚ) * 1000000000 by norm_num)
  exact ⟨h.1, h.2 3⟩

/-! ## C7 -/

/-- C7: an identity whose `lastSeen` is more than the 3-minute idle
threshold in the past is absent from the registry after the next sweep,
and its next request builds a fresh full bucket of capacity `burst`
(the freshly created limiter refills to exactly `burst` tokens, the
request is admitted, and the new entry holds `burst - 1` tokens). -/
theorem c7_idle_entry_swept_then_fresh_bucket
    (cfg : LimiterCfg) (reg : Registry) (ip : String)
    (now nowNext : ℚ) (e : ClientEntry)
    (hnd : regKeysNodup reg) (hfind : regFind reg ip = some e)
    (hidle : 180 < now - e.lastSeen)
    (hnow : 0 ≤ nowNext) (hfill : (cfg.burst : ℚ) ≤ cfg.rps * nowNext)
    (hb : 1 ≤ cfg.burst) :
    regFind (sweepStep reg now) ip = none
    ∧ (rateNewLimiter cfg.rps cfg.burst).advance nowNext = (cfg.burst : ℚ)
    ∧ rateLimitStep cfg (sweepStep reg now) (some ip) nowNext
      = (RLOutcome.admitted,
         regSet (sweepStep reg now) ip
           (midEntry cfg nowNext ((cfg.burst : ℚ) - 1))) := by
  have hmiss : regFind (sweepStep reg now) ip = none := by
    unfold sweepStep
    rw [regFind_filter_nodup reg ip e _ hnd hfind]
    have hpred : (if 180 < now - e.lastSeen then false else true) = false :=
      if_pos hidle
    rw [if_neg (by rw [hpred]; exact Bool.false_ne_true)]
  exact ⟨hmiss, advance_fresh cfg.rps cfg.burst nowNext hnow hfill,
    rateLimitStep_fresh cfg (sweepStep reg now) ip nowNext hmiss hnow
      hfill hb⟩

/-- C7 witness: a client last seen at second 100, swept at second 300
(200 s idle > 180 s threshold), requesting again at second 400. -/
theorem c7_idle_entry_swept_then_fresh_bucket_witness :
    regFind (sweepStep [("1.2.3.4", midEntry ⟨2, 4, true⟩ 100 3)] 300)
        "1.2.3.4" = none
    ∧ (rateNewLimiter (2 : ℚ) 4).advance 400 = ((4 : ℕ) : ℚ)
    ∧ rateLimitStep ⟨2, 4, true⟩
        (sweepStep [("1.2.3.4", midEntry ⟨2, 4, true⟩ 100 3)] 300)
        (some "1.2.3.4") 400
      = (RLOutcome.admitted,
         regSet (sweepStep [("1.2.3.4", midEntry ⟨2, 4, true⟩ 100 3)] 300)
           "1.2.3.4" (midEntry ⟨2, 4, true⟩ 400 (((4 : ℕ) : ℚ) - 1))) :=
  c7_idle_entry_swept_then_fresh_bucket ⟨2, 4, true⟩
    [("1.2.3.4", midEntry ⟨2, 4, true⟩ 100 3)] "1.2.3.4" 300 400
    (midEntry ⟨2, 4, true⟩ 100 3)
    (by simp [regKeysNodup]) rfl
    (show (180 : ℚ) < 300 - 100 by norm_num) (by norm_num)
    (show ((4 : ℕ) : ℚ) ≤ (2 : ℚ) * 400 by norm_num) (by norm_num)

/-! ## Runtime codec lemmas -/

theorem digitVal_digitChar (d : ℕ) (hd : d < 10) :
    digitVal (digitChar d) = some d := by
  interval_cases d <;> decide

theorem digitChar_not_special (d : ℕ) (hd : d < 10) :
    digitChar d ≠ ' ' ∧ digitChar d ≠ '"' ∧ digitChar d ≠ '\\'
    ∧ digitChar d ≠ '-' ∧ digitChar d ≠ '+' := by
  interval_cases d <;> decide

theorem natToChars_mem (n : ℕ) (c : Char) (hc : c ∈ natToChars n) :
    ∃ d, d < 10 ∧ c = digitChar d := by
  unfold natToChars at hc
  by_cases h0 : n = 0
  · rw [if_pos h0] at hc
    refine ⟨0, by norm_num, ?_⟩
    simpa using hc
  · rw [if_neg h0] at hc
    rcases List.mem_map.mp hc with ⟨d, hd, rfl⟩
    exact ⟨d, Nat.digits_lt_base (by norm_num) (List.mem_reverse.mp hd), rfl⟩

theorem natToChars_ne_nil (n : ℕ) : natToChars n ≠ [] := by
  unfold natToChars
  by_cases h0 : n = 0
  · rw [if_pos h0]
    exact List.cons_ne_nil _ _
  · rw [if_neg h0]
    simp [Nat.digits_ne_nil_iff_ne_zero.mpr h0]

theorem parseDigitsAux_map (L : List ℕ) (hL : ∀ d ∈ L, d < 10) :
    ∀ acc : ℕ, parseDigitsAux (L.map digitChar) acc
      = some (L.foldl (fun a d => a * 10 + d) acc) := by
  induction L with
  | nil => intro acc; rfl
  | cons d L ih =>
    intro acc
    rw [List.map_cons, parseDigitsAux,
      digitVal_digitChar d (hL d (List.mem_cons_self d L))]
    exact ih (fun x hx => hL x (List.mem_cons_of_mem d hx)) (acc * 10 + d)

theorem foldl_digits_reverse (L : List ℕ) :
    ∀ acc : ℕ, L.reverse.foldl (fun a d => a * 10 + d) acc
      = acc * 10 ^ L.length + Nat.ofDigits 10 L := by
  induction L with
  | nil => intro acc; simp [Nat.ofDigits]
  | cons d L ih =>
    intro acc
    rw [List.reverse_cons, List.foldl_append, ih acc]
    simp only [List.foldl_cons, List.foldl_nil, Nat.ofDigits_cons,
      List.length_cons]
    ring

theorem parseDigitsAux_natToChars (n : ℕ) :
    parseDigitsAux (natToChars n) 0 = some n := by
  unfold natToChars
  by_cases h0 : n = 0
  · rw [if_pos h0, h0]
    rfl
  · rw [if_neg h0,
      parseDigitsAux_map _
        (fun d hd => Nat.digits_lt_base (by norm_num)
          (List.mem_reverse.mp hd)),
      foldl_digits_reverse]
    simp [Nat.ofDigits_digits]

theorem splitSpace_ne_nil (s : GoStr) : splitSpace s ≠ [] := by
  cases s with
  | nil => simp [splitSpace]
  | cons c rest =>
    unfold splitSpace
    rcases h : splitSpace rest with _ | ⟨w, ws⟩
    · simp
    · dsimp only
      split <;> simp

theorem splitSpace_append (xs ys : GoStr) (hxs : ∀ c ∈ xs, c ≠ ' ') :
    splitSpace (xs ++ ' ' :: ys) = xs :: splitSpace ys := by
  induction xs with
  | nil =>
    simp only [List.nil_append]
    conv_lhs => rw [splitSpace]
    rcases h : splitSpace ys with _ | ⟨w, ws⟩
    · exact absurd h (splitSpace_ne_nil ys)
    · dsimp only
      rw [if_pos rfl]
  | cons c xs ih =>
    have hc : c ≠ ' ' := hxs c (List.mem_cons_self c xs)
    simp only [List.cons_append]
    conv_lhs => rw [splitSpace]
    rw [ih (fun a ha => hxs a (List.mem_cons_of_mem c ha))]
    dsimp only
    rw [if_neg hc]

theorem goUnquote_goQuote (s : GoStr)
    (h : ∀ c ∈ s, c ≠ '"' ∧ c ≠ '\\') :
    goUnquote (goQuote s) = some s := by
  unfold goQuote
  rw [goUnquote]
  have h1 : (s ++ ['"']).getLast? = some '"' := List.getLast?_concat s
  have h2 : (s ++ ['"']).dropLast = s := List.dropLast_concat
  rw [if_pos ⟨h1, by rw [h2]; exact h⟩, h2]

theorem parseInt32_neg_digits (ds : GoStr) (v : ℕ) (hne : ds ≠ [])
    (hparse : parseDigitsAux ds 0 = some v) :
    parseInt32 ('-' :: ds) = if v ≤ 2 ^ 31 then some (-(v : Int)) else none := by
  rcases ds with _ | ⟨c0, rest0⟩
  · exact absurd rfl hne
  · rw [parseInt32]
    rw [if_pos (Or.inl rfl), hparse]
    rfl

theorem parseInt32_pos_digits (c0 : Char) (rest0 : GoStr) (v : ℕ)
    (hc1 : c0 ≠ '-') (hc2 : c0 ≠ '+')
    (hparse : parseDigitsAux (c0 :: rest0) 0 = some v) :
    parseInt32 (c0 :: rest0) = if v ≤ 2 ^ 31 - 1 then some (v : Int) else none := by
  rw [parseInt32]
  rw [if_neg (by rintro (h | h); exact hc1 h; exact hc2 h), hparse]
  have hdec : ¬(decide (c0 = '-') = true) := by simp [hc1]
  show (if decide (c0 = '-') = true then
        (if v ≤ 2 ^ 31 then some (-(v : Int)) else none)
      else if v ≤ 2 ^ 31 - 1 then some ((v : Int)) else none)
    = if v ≤ 2 ^ 31 - 1 then some ((v : Int)) else none
  rw [if_neg hdec]

theorem parseInt32_itoa (r : Int) (hlo : -(2 ^ 31) ≤ r)
    (hhi : r ≤ 2 ^ 31 - 1) :
    parseInt32 (itoa r) = some r := by
  unfold itoa
  by_cases hneg : r < 0
  · rw [if_pos hneg,
      parseInt32_neg_digits _ r.natAbs (natToChars_ne_nil _)
        (parseDigitsAux_natToChars _),
      if_pos (by omega)]
    congr 1
    omega
  · rw [if_neg hneg]
    rcases hnn : natToChars r.toNat with _ | ⟨c0, rest0⟩
    · exact absurd hnn (natToChars_ne_nil _)
    · have hc0 : ∃ d, d < 10 ∧ c0 = digitChar d :=
        natToChars_mem r.toNat c0 (by rw [hnn]; exact List.mem_cons_self _ _)
      rcases hc0 with ⟨d, hd, rfl⟩
      have hspec := digitChar_not_special d hd
      rw [parseInt32_pos_digits _ _ r.toNat hspec.2.2.2.1 hspec.2.2.2.2
        (by rw [← hnn]; exact parseDigitsAux_natToChars _),
        if_pos (by omega)]
      congr 1
      omega

/-! ## C10 -/

/-- C10: for every 32-bit `Runtime` value, marshalling (to the quoted
string `"<r> mins"`) and then unmarshalling yields the value back with
no error: the JSON encoding of `Runtime` round-trips. -/
theorem c10_runtime_json_round_trip (r : Int)
    (hlo : -(2 ^ 31) ≤ r) (hhi : r ≤ 2 ^ 31 - 1) :
    unmarshalRuntime (marshalRuntime r) = some r := by
  have hchars : ∀ c ∈ itoa r, c ≠ ' ' ∧ c ≠ '"' ∧ c ≠ '\\' := by
    intro c hc
    unfold itoa at hc
    by_cases hneg : r < 0
    · rw [if_pos hneg] at hc
      rcases List.mem_cons.mp hc with rfl | hc2
      · exact ⟨by decide, by decide, by decide⟩
      · rcases natToChars_mem _ c hc2 with ⟨d, hd, rfl⟩
        have hs := digitChar_not_special d hd
        exact ⟨hs.1, hs.2.1, hs.2.2.1⟩
    · rw [if_neg hneg] at hc
      rcases natToChars_mem _ c hc with ⟨d, hd, rfl⟩
      have hs := digitChar_not_special d hd
      exact ⟨hs.1, hs.2.1, hs.2.2.1⟩
  have htail : ∀ c ∈ ([' ', 'm', 'i', 'n', 's'] : GoStr),
      c ≠ '"' ∧ c ≠ '\\' := by decide
  unfold marshalRuntime unmarshalRuntime
  rw [goUnquote_goQuote _ (by
    intro c hc
    rcases List.mem_append.mp hc with hc1 | hc2
    · exact ⟨(hchars c hc1).2.1, (hchars c hc1).2.2⟩
    · exact htail c hc2)]
  dsimp only
  rw [splitSpace_append (itoa r) ['m', 'i', 'n', 's']
    (fun c hc => (hchars c hc).1)]
  rw [show splitSpace (['m', 'i', 'n', 's'] : GoStr) = [['m', 'i', 'n', 's']]
    from rfl]
  show (if (['m', 'i', 'n', 's'] : GoStr) = ['m', 'i', 'n', 's'] then
      parseInt32 (itoa r) else none) = some r
  rw [if_pos rfl]
  exact parseInt32_itoa r hlo hhi

/-- C10 witness: the runtime 102 round-trips; so does -5. -/
theorem c10_runtime_json_round_trip_witness :
    unmarshalRuntime (marshalRuntime 102) = some 102
    ∧ unmarshalRuntime (marshalRuntime (-5)) = some (-5) :=
  ⟨c10_runtime_json_round_trip 102 (by norm_num) (by norm_num),
   c10_runtime_json_round_trip (-5) (by norm_num) (by norm_num)⟩

/-- C8 witness: two concrete writers race from stored version 2; the
first wins with version 3, the second conflicts, and the read shows the
winner's fields. -/
theorem c8_concurrent_updates_one_winner_witness :
    (movieUpdate [demoRow] ⟨1, 0, "B", 2001, 101, ["b"], 2⟩).2
      = Except.ok ⟨1, 0, "B", 2001, 101, ["b"], 3⟩
    ∧ (movieUpdate (movieUpdate [demoRow] ⟨1, 0, "B", 2001, 101, ["b"], 2⟩).1
        ⟨1, 0, "C", 2002, 102, ["c"], 2⟩).2 = Except.error DataErr.editConflict
    ∧ (movieUpdate (movieUpdate [demoRow] ⟨1, 0, "B", 2001, 101, ["b"], 2⟩).1
        ⟨1, 0, "C", 2002, 102, ["c"], 2⟩).1
      = (movieUpdate [demoRow] ⟨1, 0, "B", 2001, 101, ["b"], 2⟩).1
    ∧ movieGet (movieUpdate
          (movieUpdate [demoRow] ⟨1, 0, "B", 2001, 101, ["b"], 2⟩).1
          ⟨1, 0, "C", 2002, 102, ["c"], 2⟩).1 1
      = Except.ok (updatedRow demoRow ⟨1, 0, "B", 2001, 101, ["b"], 2⟩) :=
  c8_concurrent_updates_one_winner [demoRow] ⟨1, 0, "B", 2001, 101, ["b"], 2⟩
    ⟨1, 0, "C", 2002, 102, ["c"], 2⟩ demoRow rfl (by norm_num) rfl rfl rfl
